import Mathlib

/-!
# JS_basics_with_code: a verification development

Shallow embedding of the snippets of the repository that carry a checkable
contract, and theorems about them.

Conventions of the embedding.

* JavaScript numbers that only ever hold integers (loop indices, counters,
  millisecond delays, clock readings, exit codes) are `Nat` or `Int`.
* A source file is run only if the whole of it parses; worker.js is embedded
  as the list of its top-level elements, the text that is no statement being
  kept as tokens.
* Console output is a list of structured log lines, oldest first.
* A handler that may throw returns `Except`; the `error` alternative is the
  exception that escapes the handler.
-/

namespace WorkerJs

/-- A message crossing the thread boundary: `{ type, data }`. -/
structure Message (D : Type) where
  type : String
  data : D
deriving DecidableEq, Repr

/-- The body of the `message` listener of worker.js, with the computation it
calls as a parameter: the list returned is what was passed to
`parentPort.postMessage`, in order. The listener has no `try`, so an
exception of the computation escapes it. -/
def onMessageWith {P R E : Type} (compute : P → Except E R) (msg : Message P) :
    Except E (List (Message R)) :=
  if msg.type = "start" then
    match compute msg.data with
    | .error e => .error e
    | .ok result => .ok [{ type := "result", data := result }]
  else
    .ok []

/-- A token of source text, as far as the end of a statement is concerned:
an identifier that is neither a reserved word nor a contextual keyword, a line
terminator, or anything else. -/
inductive Tok where
  | ident (name : String)
  | newline
  | other (text : String)
deriving DecidableEq, Repr

/-- A top-level element of worker.js, in the order of the file. -/
inductive SourceElement where
  /-- Line 2: `const { parentPort } = require('worker_threads');`. -/
  | requireParentPort
  /-- Lines 4-10: `parentPort.on('message', (data) => { ... });`. -/
  | onMessageListener
  /-- A declaration `function name(data) { ... }`, up to its closing brace. -/
  | functionDecl (name : String)
  /-- Lines 23-29: `self.onmessage = function (e) { ... };`. -/
  | selfOnmessage
  /-- Text that is none of the above, as its tokens. -/
  | raw (toks : List Tok)
deriving DecidableEq, Repr

/-- The file worker.js as it is in the repository. The declaration of
`heavyComputation` that starts on line 12 closes with the brace that opens
line 22; the rest of line 22 is the text `orker Example`; a second handler and
a second declaration of `heavyComputation` follow on lines 23-41. -/
def shipped : List SourceElement :=
  [SourceElement.requireParentPort,
   SourceElement.onMessageListener,
   SourceElement.functionDecl "heavyComputation",
   SourceElement.raw [Tok.ident "orker", Tok.ident "Example", Tok.newline],
   SourceElement.selfOnmessage,
   SourceElement.functionDecl "heavyComputation"]

/-- The first identifier that directly follows another identifier on the same
line, if there is one. No statement has two such identifiers side by side, and
a semicolon is inserted before a token only when a line terminator precedes
it; so the second identifier is an unexpected token. -/
def unexpectedIdentifier : List Tok → Option String
  | Tok.ident _ :: Tok.ident b :: _ => some b
  | _ :: rest => unexpectedIdentifier rest
  | [] => none

/-- The syntax error of a file, if it has one: the unexpected identifier of its
first element that does not parse. -/
def syntaxError : List SourceElement → Option String
  | [] => none
  | SourceElement.raw toks :: rest =>
    match unexpectedIdentifier toks with
    | some b => some b
    | none => syntaxError rest
  | _ :: rest => syntaxError rest

/-- How a worker thread can end other than by finishing: the file it was
started on does not parse, or an exception was not caught. -/
inductive Fault (E : Type) where
  | syntaxError (unexpected : String)
  | uncaught (error : E)
deriving DecidableEq, Repr

/-- The functions declared in the worker once its file is loaded. The whole
file is parsed before any of it runs, so a file with a syntax error declares
nothing. -/
def declaredFunctions (file : List SourceElement) : List String :=
  match syntaxError file with
  | some _ => []
  | none => file.filterMap (fun el =>
      match el with
      | SourceElement.functionDecl name => some name
      | _ => none)

/-- The worker thread started on `file` and then sent `msg`: what it posts, or
how it ends. The whole file is parsed before any of it runs: with a syntax
error the thread ends at once, no listener is registered and nothing is
posted. `loaded` stands for what the statements of a file that parses do with
the message. -/
def workerThread {P R E : Type} (file : List SourceElement)
    (loaded : Message P → Except E (List (Message R))) (msg : Message P) :
    Except (Fault E) (List (Message R)) :=
  match syntaxError file with
  | some b => .error (Fault.syntaxError b)
  | none =>
    match loaded msg with
    | .error e => .error (Fault.uncaught e)
    | .ok posted => .ok posted

end WorkerJs

namespace MainJs

/-- A line written to the console by main.js, with the argument it prints.
`M` is the type of the messages received from the worker and `E` the type of
error values. -/
inductive LogLine (M E : Type) where
  /-- The line `console.log('Main: Starting worker')`. -/
  | starting
  /-- The line `console.log('Main: Received from worker:', data)`. -/
  | received (data : M)
  /-- The line `console.error('Worker error:', error)`. -/
  | workerError (error : E)
  /-- The line `console.error(text)` of the exit listener. -/
  | stopped (text : String)
  /-- The line `console.log('Main thread counter:', value)`. -/
  | counter (value : Nat)
deriving DecidableEq, Repr

/-- Whether the line was written with `console.error`. -/
def LogLine.isError {M E : Type} : LogLine M E → Bool
  | .workerError _ => true
  | .stopped _ => true
  | _ => false

/-- The mutable state of main.js: the variable `counter` and the console. -/
structure MainState (M E : Type) where
  counter : Nat
  console : List (LogLine M E)
deriving DecidableEq, Repr

/-- What the event loop can call in main.js: the three listeners registered on
`worker` and the callback of `setInterval`. -/
inductive Event (M E : Type) where
  | message (data : M)
  | error (error : E)
  | exit (code : Int)
  | tick
deriving DecidableEq, Repr

/-- Whether the event is a timer tick. -/
def Event.isTick {M E : Type} : Event M E → Bool
  | .tick => true
  | _ => false

/-- The state once the top level of main.js has run: `counter = 0` and the
starting line printed. -/
def initial {M E : Type} : MainState M E :=
  { counter := 0, console := [LogLine.starting] }

/-- The listener `worker.on('message', (data) => ...)`. -/
def onWorkerMessage {M E : Type} (st : MainState M E) (data : M) : MainState M E :=
  { st with console := st.console ++ [LogLine.received data] }

/-- The listener `worker.on('error', (error) => ...)`. -/
def onWorkerError {M E : Type} (st : MainState M E) (error : E) : MainState M E :=
  { st with console := st.console ++ [LogLine.workerError error] }

/-- The lines the exit listener writes for exit code `code`:
`if (code !== 0) console.error("Worker stopped with exit code " + code)`. -/
def exitLines {M E : Type} (code : Int) : List (LogLine M E) :=
  if code ≠ 0 then
    [LogLine.stopped ("Worker stopped with exit code " ++ toString code)]
  else
    []

/-- The listener `worker.on('exit', (code) => ...)`. -/
def onWorkerExit {M E : Type} (st : MainState M E) (code : Int) : MainState M E :=
  { st with console := st.console ++ exitLines code }

/-- The callback of `setInterval`: `console.log('Main thread counter:', counter++)`
prints the old value of `counter` and stores the old value plus one. -/
def onTick {M E : Type} (st : MainState M E) : MainState M E :=
  { counter := st.counter + 1, console := st.console ++ [LogLine.counter st.counter] }

/-- One turn of the event loop of main.js. -/
def handle {M E : Type} (st : MainState M E) : Event M E → MainState M E
  | .message data => onWorkerMessage st data
  | .error error => onWorkerError st error
  | .exit code => onWorkerExit st code
  | .tick => onTick st

/-- The events of a list handled one after the other. -/
def run {M E : Type} (st : MainState M E) (evs : List (Event M E)) : MainState M E :=
  evs.foldl handle st

/-- The number of timer ticks among the events. -/
def ticks {M E : Type} (evs : List (Event M E)) : Nat :=
  evs.countP Event.isTick

/-- Platform model (Node `worker_threads`, not code of the repository): what
the `worker` object of main.js is notified of after the worker's `message`
listener has run. Each posted message arrives as one `message` event; an
exception that escapes the listener is uncaught in the worker, which raises
one `error` event with it and then ends the worker with exit code `1`. -/
def deliver {R E : Type} :
    Except E (List (WorkerJs.Message R)) → List (Event (WorkerJs.Message R) E)
  | .ok posted => posted.map Event.message
  | .error e => [Event.error e, Event.exit 1]

/-- Lines 6-9 of main.js, on the worker file `file`: the worker is created and
sent `{ type: 'start', data }`. The result is what the `worker` object is then
notified of; a thread that ends with a fault is reported as in `deliver`, by
one `error` event and exit code `1`. -/
def dispatch {P R E : Type} (file : List WorkerJs.SourceElement)
    (loaded : WorkerJs.Message P → Except E (List (WorkerJs.Message R))) (data : P) :
    List (Event (WorkerJs.Message R) (WorkerJs.Fault E)) :=
  deliver (WorkerJs.workerThread file loaded { type := "start", data := data })

/-- Whether the line is a `Main: Received from worker:` line. -/
def LogLine.isReceived {M E : Type} : LogLine M E → Bool
  | .received _ => true
  | _ => false

end MainJs

namespace NestedCallbackJs

/-- A call `setTimeout(() => { const result = num * num; callback(result); }, delay)`
made by `getSquare`: the delay in milliseconds and what the closure captured.
`N` is the type of the first argument of `getSquare` and `C` that of the second. -/
structure Timer (N C : Type) where
  delay : Nat
  num : N
  callback : C
deriving DecidableEq, Repr

/-- What the timer's closure does when it fires: `callback(num * num)`. -/
def Timer.fire {N C : Type} [Mul N] (t : Timer N C) : C × N :=
  (t.callback, t.num * t.num)

/-- The state `getSquare` reads and writes: the property `getSquare.delay`
(`none` while it is `undefined`), the calls made to `setTimeout` so far, and
the console. -/
structure State (N C : Type) where
  delay : Option Nat
  timers : List (Timer N C)
  console : List String
deriving DecidableEq, Repr

/-- The state at program start: `getSquare.delay` is `undefined`. -/
def initial {N C : Type} : State N C :=
  { delay := none, timers := [], console := [] }

/-- The function `getSquare(num, callback)` of nestedCallback.js. -/
def getSquare {N C : Type} (st : State N C) (num : N) (callback : C) : State N C :=
  let st1 : State N C :=
    match st.delay with
    | none =>
      { st with console := st.console ++ ["Initial call, setting delay to 1000ms"],
                delay := some 1000 }
    | some _ => st
  match st1.delay with
  | none => st1
  | some currentDelay =>
    { st1 with timers := st1.timers ++ [{ delay := currentDelay, num := num, callback := callback }],
               delay := some (currentDelay + 1000) }

/-- A sequence of calls to `getSquare`, each with its two arguments. -/
def runCalls {N C : Type} (st : State N C) (calls : List (N × C)) : State N C :=
  calls.foldl (fun st a => getSquare st a.1 a.2) st

end NestedCallbackJs

namespace ThrottlingJs

/-- The state of one function returned by `throttle(func, limit)`: the closure
variable `lastCall`; the calls made to `func` so far, each with the clock
reading `now` of the call that made it and its arguments; and, innermost
first, the `now` of every call of the returned function that is still inside
`func.apply(this, args)`. -/
structure ThrottleState (A : Type) where
  lastCall : Int
  invoked : List (Int × A)
  running : List Int
deriving DecidableEq, Repr

/-- The call `throttle(func, limit)`: `let lastCall = 0`, and `func` not yet
called. -/
def throttle {A : Type} : ThrottleState A :=
  { lastCall := 0, invoked := [], running := [] }

/-- What can happen to the returned function: it is called, `now` being the
value of `Date.now()`, from outside or from `func` while `func` runs; or the
innermost running `func` returns; or it throws. -/
inductive Event (A : Type) where
  | call (now : Int) (args : A)
  | funcReturns
  | funcThrows
deriving DecidableEq, Repr

/-- The body of the returned function, one event at a time:
`const now = Date.now(); if (now - lastCall >= limit) { func.apply(this, args); lastCall = now; }`.
A call that passes the test starts `func`; `lastCall = now` is run when that
`func` returns, and is skipped when it throws. -/
def step {A : Type} (limit : Int) (st : ThrottleState A) : Event A → ThrottleState A
  | .call now args =>
    if now - st.lastCall ≥ limit then
      { st with invoked := st.invoked ++ [(now, args)], running := now :: st.running }
    else
      st
  | .funcReturns =>
    match st.running with
    | [] => st
    | now :: rest => { st with lastCall := now, running := rest }
  | .funcThrows =>
    match st.running with
    | [] => st
    | _ :: rest => { st with running := rest }

/-- A sequence of events, one after the other. -/
def run {A : Type} (limit : Int) (st : ThrottleState A) (evs : List (Event A)) :
    ThrottleState A :=
  evs.foldl (step limit) st

/-- The clock readings of the calls among the events, in order. -/
def clockReadings {A : Type} : List (Event A) → List Int
  | [] => []
  | .call now _ :: evs => now :: clockReadings evs
  | _ :: evs => clockReadings evs

/-- Calls, each with its clock reading and arguments, on which `func`, when it
is invoked, returns normally and without calling the returned function. -/
def returningCalls {A : Type} : List (Int × A) → List (Event A)
  | [] => []
  | c :: calls => Event.call c.1 c.2 :: Event.funcReturns :: returningCalls calls

/-- What holds of a throttle state before the calls `calls` still to come:
no `func` is running, the calls of `func` so far are `limit` apart, none is
later than `lastCall`, and none is later than a call still to come. -/
structure Apart {A : Type} (limit : Int) (st : ThrottleState A) (calls : List (Int × A)) :
    Prop where
  idle : st.running = []
  pairwise : (st.invoked.map Prod.fst).Pairwise (fun a b => limit ≤ b - a)
  le_last : ∀ t ∈ st.invoked.map Prod.fst, t ≤ st.lastCall
  le_next : ∀ t ∈ st.invoked.map Prod.fst, ∀ c ∈ calls, t ≤ c.1

end ThrottlingJs

namespace DsExampleJs

/-- The statement `freq[ch] = (freq[ch] || 0) + 1` on the object `freq`, kept as
its list of (key, value) pairs: the value of an existing key goes up by one, a
new key is added with value `1`. -/
def bump {α : Type} [DecidableEq α] : List (α × Nat) → α → List (α × Nat)
  | [], ch => [(ch, 1)]
  | (key, v) :: rest, ch =>
    if key = ch then (key, v + 1) :: rest else (key, v) :: bump rest ch

/-- The loop `for (let key in freq) { if (freq[key] !== k) { allK = false; break; } }`
started with `allK = true`: the final value of `allK`. The keys are visited in
the order of the list; the result is the same in every order. -/
def allK {α : Type} : List (α × Nat) → Int → Bool
  | [], _ => true
  | (_, v) :: rest, k => if (v : Int) ≠ k then false else allK rest k

/-- The body of the loop over `j`, on the variables `freq` and `count`, with
`ch = s[j]`. The line `console.log(freq, allK)` only prints and is left out. -/
def innerBody {α : Type} [DecidableEq α] (k : Int) (st : List (α × Nat) × Nat) (ch : α) :
    List (α × Nat) × Nat :=
  let freq := bump st.1 ch
  (freq, if allK freq k then st.2 + 1 else st.2)

/-- The loop `for (let j = i; j < n; j++)` of one pass of the outer loop, which
starts with `freq = {}`: the value of `count` after it. The index `j` stays
below `n = s.length`, so `s[j]` is always a character of `s`. -/
def innerLoop {α : Type} [DecidableEq α] (s : List α) (k : Int) (i : Nat) (count : Nat) : Nat :=
  ((List.range' i (s.length - i)).foldl
    (fun st j =>
      match s[j]? with
      | some ch => innerBody k st ch
      | none => st)
    (([] : List (α × Nat)), count)).2

/-- The function `countSubarraysWithK(s, k)` of ds_example.js, on a string given
as the list of its characters and an integer `k`. -/
def countSubarraysWithK {α : Type} [DecidableEq α] (s : List α) (k : Int) : Nat :=
  (List.range s.length).foldl (fun count i => innerLoop s k i count) 0

/-- The substring `s[i..j]`, both ends included. -/
def substring {α : Type} (s : List α) (i j : Nat) : List α :=
  (s.drop i).take (j + 1 - i)

/-- Every character occurring in `t` occurs in it exactly `k` times. -/
def EachExactly {α : Type} [DecidableEq α] (t : List α) (k : Int) : Prop :=
  ∀ c ∈ t, (t.count c : Int) = k

instance {α : Type} [DecidableEq α] (t : List α) (k : Int) : Decidable (EachExactly t k) := by
  unfold EachExactly
  infer_instance

/-- The number of index pairs `(i, j)` with `0 ≤ i ≤ j < |s|` such that every
character occurring in `s[i..j]` occurs in it exactly `k` times. -/
def pairCount {α : Type} [DecidableEq α] (s : List α) (k : Int) : Nat :=
  ((Finset.range s.length ×ˢ Finset.range s.length).filter
    (fun p => p.1 ≤ p.2 ∧ EachExactly (substring s p.1 p.2) k)).card

/-- The object `freq` after the characters of `t` have been counted from `{}`. -/
def freqOf {α : Type} [DecidableEq α] (t : List α) : List (α × Nat) :=
  t.foldl bump []

/-- How much `count` grows while the characters of `t` are handled from the
object `freq`. -/
def gain {α : Type} [DecidableEq α] (k : Int) : List (α × Nat) → List α → Nat
  | _, [] => 0
  | freq, ch :: t => (if allK (bump freq ch) k then 1 else 0) + gain k (bump freq ch) t

end DsExampleJs

namespace ClosureExampleJs

/-- The `count` variables created so far, one for each call of `makeCounter`,
in the order of creation, with their current values. The function returned by
a call of `makeCounter` is identified by the position of its variable. -/
abbrev Heap := List Nat

/-- The call `makeCounter()`: `let count = 0` creates a fresh variable, and the
function returned closes over it. -/
def makeCounter (h : Heap) : Nat × Heap :=
  (h.length, h ++ [0])

/-- A call of the function returned by `makeCounter`, for the counter `c`:
`count++; return count;` on its own variable. `none` if no counter `c` has been
made. -/
def callCounter (h : Heap) (c : Nat) : Option (Nat × Heap) :=
  match h[c]? with
  | none => none
  | some count => some (count + 1, h.set c (count + 1))

/-- What a program does with counters: make a new one, or call one. -/
inductive Op where
  | make
  | call (c : Nat)
deriving DecidableEq, Repr

/-- A program run from the heap `h`: the values returned by its calls, in
order, and the final heap; `none` if it calls a counter that was not made. -/
def run : Heap → List Op → Option (List Nat × Heap)
  | h, [] => some ([], h)
  | h, Op.make :: ops => run (makeCounter h).2 ops
  | h, Op.call c :: ops =>
    match callCounter h c with
    | none => none
    | some (r, h1) =>
      match run h1 ops with
      | none => none
      | some (rs, h2) => some (r :: rs, h2)

/-- The number of calls of the counter `c` in a program. -/
def callsOf (c : Nat) (ops : List Op) : Nat :=
  ops.count (Op.call c)

/-- Every call in the program is a call of a counter made before it, `n`
counters existing at the start. -/
def WellFormed : Nat → List Op → Bool
  | _, [] => true
  | n, Op.make :: ops => WellFormed (n + 1) ops
  | n, Op.call c :: ops => decide (c < n) && WellFormed n ops

/-- Calls of two counters in any order: `true` stands for a call of `c1`,
`false` for a call of `c2`. -/
def interleaving (c1 c2 : Nat) (order : List Bool) : List Op :=
  order.map (fun b => Op.call (if b then c1 else c2))

end ClosureExampleJs

/-! ## Theorems -/

namespace MainJs

theorem run_append {M E : Type} (st : MainState M E) (xs ys : List (Event M E)) :
    run st (xs ++ ys) = run (run st xs) ys := by
  unfold run
  rw [List.foldl_append]

theorem handle_counter {M E : Type} (st : MainState M E) (ev : Event M E) :
    (handle st ev).counter = st.counter + (if ev.isTick then 1 else 0) := by
  cases ev <;> rfl

theorem run_counter {M E : Type} (evs : List (Event M E)) :
    ∀ st : MainState M E, (run st evs).counter = st.counter + ticks evs := by
  induction evs with
  | nil => intro st; rfl
  | cons ev evs ih =>
    intro st
    show (run (handle st ev) evs).counter = _
    rw [ih, handle_counter]
    unfold ticks
    rw [List.countP_cons]
    cases ev <;> simp [Event.isTick]; omega

end MainJs

namespace NestedCallbackJs

theorem getSquare_of_some {N C : Type} (st : State N C) (d : Nat) (h : st.delay = some d)
    (num : N) (callback : C) :
    getSquare st num callback =
      { delay := some (d + 1000),
        timers := st.timers ++ [{ delay := d, num := num, callback := callback }],
        console := st.console } := by
  cases st with
  | mk delay timers console =>
    cases h
    rfl

theorem getSquare_of_none {N C : Type} (st : State N C) (h : st.delay = none)
    (num : N) (callback : C) :
    getSquare st num callback =
      { delay := some 2000,
        timers := st.timers ++ [{ delay := 1000, num := num, callback := callback }],
        console := st.console ++ ["Initial call, setting delay to 1000ms"] } := by
  cases st with
  | mk delay timers console =>
    cases h
    rfl

theorem runCalls_delay_of_some {N C : Type} (calls : List (N × C)) :
    ∀ (st : State N C) (d : Nat), st.delay = some d →
      (runCalls st calls).delay = some (d + 1000 * calls.length) := by
  induction calls with
  | nil => intro st d h; simpa [runCalls] using h
  | cons a calls ih =>
    intro st d h
    show (runCalls (getSquare st a.1 a.2) calls).delay = _
    rw [ih (getSquare st a.1 a.2) (d + 1000) (by rw [getSquare_of_some st d h])]
    rw [List.length_cons]
    congr 1
    omega

theorem runCalls_initial_delay {N C : Type} (a : N × C) (calls : List (N × C)) :
    (runCalls (initial : State N C) (a :: calls)).delay =
      some (1000 * ((a :: calls).length + 1)) := by
  show (runCalls (getSquare initial a.1 a.2) calls).delay = _
  rw [runCalls_delay_of_some calls _ 2000 (by rw [getSquare_of_none initial rfl])]
  rw [List.length_cons]
  congr 1
  omega

end NestedCallbackJs

namespace ThrottlingJs

theorem step_call_return {A : Type} (limit : Int) (st : ThrottleState A) (now : Int) (args : A)
    (hidle : st.running = []) :
    step limit (step limit st (Event.call now args)) Event.funcReturns =
      if now - st.lastCall ≥ limit then
        { lastCall := now, invoked := st.invoked ++ [(now, args)], running := [] }
      else st := by
  cases st with
  | mk lastCall invoked running =>
    cases hidle
    show step limit (if now - lastCall ≥ limit then _ else _) Event.funcReturns = _
    split <;> rfl

theorem apart_step {A : Type} (limit : Int) (st : ThrottleState A) (c : Int × A)
    (calls : List (Int × A)) (hs : ((c :: calls).map Prod.fst).Pairwise (fun a b => a ≤ b))
    (h : Apart limit st (c :: calls)) :
    Apart limit (step limit (step limit st (Event.call c.1 c.2)) Event.funcReturns) calls := by
  rw [step_call_return limit st c.1 c.2 h.idle]
  split
  · next hge =>
    refine ⟨rfl, ?_, ?_, ?_⟩
    · show ((st.invoked ++ [(c.1, c.2)]).map Prod.fst).Pairwise _
      rw [List.map_append, List.pairwise_append]
      refine ⟨h.pairwise, by simp, ?_⟩
      intro a ha b hb
      have hb1 : b = c.1 := by simpa using hb
      have := h.le_last a ha
      omega
    · intro t ht
      show t ≤ c.1
      have ht1 : t ∈ st.invoked.map Prod.fst ∨ t = c.1 := by
        simpa [List.map_append] using ht
      rcases ht1 with ht1 | ht1
      · exact h.le_next t ht1 c (List.mem_cons_self _ _)
      · omega
    · intro t ht d hd
      have ht1 : t ∈ st.invoked.map Prod.fst ∨ t = c.1 := by
        simpa [List.map_append] using ht
      rcases ht1 with ht1 | ht1
      · exact h.le_next t ht1 d (List.mem_cons_of_mem _ hd)
      · rw [ht1]
        rw [List.map_cons, List.pairwise_cons] at hs
        exact hs.1 d.1 (List.mem_map_of_mem _ hd)
  · exact ⟨h.idle, h.pairwise, h.le_last,
      fun t ht d hd => h.le_next t ht d (List.mem_cons_of_mem _ hd)⟩

theorem apart_run {A : Type} (limit : Int) (calls : List (Int × A)) :
    ∀ st : ThrottleState A, (calls.map Prod.fst).Pairwise (fun a b => a ≤ b) →
      Apart limit st calls → Apart limit (run limit st (returningCalls calls)) [] := by
  induction calls with
  | nil => intro st _ h; exact h
  | cons c calls ih =>
    intro st hs h
    show Apart limit
      (run limit (step limit (step limit st (Event.call c.1 c.2)) Event.funcReturns)
        (returningCalls calls)) []
    refine ih _ ?_ (apart_step limit st c calls hs h)
    rw [List.map_cons, List.pairwise_cons] at hs
    exact hs.2

theorem clockReadings_returningCalls {A : Type} (calls : List (Int × A)) :
    clockReadings (returningCalls calls) = calls.map Prod.fst := by
  induction calls with
  | nil => rfl
  | cons c calls ih =>
    show c.1 :: clockReadings (returningCalls calls) = _
    rw [ih, List.map_cons]

end ThrottlingJs

namespace DsExampleJs

theorem foldl_range'_eq_foldl_drop {α : Type} [DecidableEq α] (s : List α) (k : Int) :
    ∀ (d i : Nat) (st : List (α × Nat) × Nat), i + d = s.length →
      (List.range' i d).foldl
        (fun st j =>
          match s[j]? with
          | some ch => innerBody k st ch
          | none => st) st =
      (s.drop i).foldl (innerBody k) st := by
  intro d
  induction d with
  | zero =>
    intro i st h
    have hi : s.length ≤ i := by omega
    rw [List.drop_eq_nil_of_le hi]
    rfl
  | succ d ih =>
    intro i st h
    have hi : i < s.length := by omega
    rw [List.range'_succ, List.foldl_cons, List.drop_eq_getElem_cons hi, List.foldl_cons,
      ih (i + 1) _ (by omega)]
    congr 1
    rw [List.getElem?_eq_getElem hi]

theorem foldl_innerBody {α : Type} [DecidableEq α] (k : Int) (t : List α) :
    ∀ (freq : List (α × Nat)) (count : Nat),
      t.foldl (innerBody k) (freq, count) = (t.foldl bump freq, count + gain k freq t) := by
  induction t with
  | nil => intro freq count; rfl
  | cons ch t ih =>
    intro freq count
    rw [List.foldl_cons, List.foldl_cons]
    show t.foldl (innerBody k) (bump freq ch, if allK (bump freq ch) k then count + 1 else count) = _
    rw [ih]
    show _ = (t.foldl bump (bump freq ch),
      count + ((if allK (bump freq ch) k then 1 else 0) + gain k (bump freq ch) t))
    congr 1
    split <;> omega

theorem innerLoop_eq {α : Type} [DecidableEq α] (s : List α) (k : Int) (i count : Nat)
    (hi : i ≤ s.length) : innerLoop s k i count = count + gain k [] (s.drop i) := by
  unfold innerLoop
  rw [foldl_range'_eq_foldl_drop s k (s.length - i) i _ (by omega), foldl_innerBody]

theorem outer_eq_sum {α : Type} [DecidableEq α] (s : List α) (k : Int) :
    ∀ m : Nat, m ≤ s.length →
      (List.range m).foldl (fun count i => innerLoop s k i count) 0 =
        ∑ i ∈ Finset.range m, gain k [] (s.drop i) := by
  intro m
  induction m with
  | zero => intro _; rfl
  | succ m ih =>
    intro hm
    rw [List.range_succ, List.foldl_append, List.foldl_cons, List.foldl_nil, ih (by omega),
      innerLoop_eq s k m _ (by omega), Finset.sum_range_succ]

theorem bump_map {α : Type} [DecidableEq α] (g : α → Nat) (ch : α) :
    ∀ L : List α, L.Nodup →
      bump (L.map (fun c => (c, g c))) ch =
        if ch ∈ L then L.map (fun c => (c, if c = ch then g c + 1 else g c))
        else L.map (fun c => (c, g c)) ++ [(ch, 1)] := by
  intro L
  induction L with
  | nil => intro _; rfl
  | cons a L ih =>
    intro hnd
    rw [List.nodup_cons] at hnd
    rw [List.map_cons, bump]
    by_cases hac : a = ch
    · subst hac
      rw [if_pos rfl, if_pos (List.mem_cons_self _ _), List.map_cons, if_pos rfl]
      congr 1
      apply List.map_congr_left
      intro c hc
      have hne : c ≠ a := fun h => hnd.1 (h ▸ hc)
      rw [if_neg hne]
    · rw [if_neg hac, ih hnd.2]
      by_cases hmem : ch ∈ L
      · rw [if_pos hmem, if_pos (List.mem_cons_of_mem _ hmem), List.map_cons, if_neg hac]
      · have hmem2 : ch ∉ a :: L := by
          intro h
          rcases List.mem_cons.1 h with h | h
          · exact hac h.symm
          · exact hmem h
        rw [if_neg hmem, if_neg hmem2]
        rfl

theorem allK_map {α : Type} (g : α → Nat) (k : Int) :
    ∀ L : List α, allK (L.map (fun c => (c, g c))) k = true ↔ ∀ c ∈ L, (g c : Int) = k := by
  intro L
  induction L with
  | nil => simp [allK]
  | cons a L ih =>
    rw [List.map_cons, allK]
    by_cases h : (g a : Int) = k
    · simp [h, ih]
    · simp [h]

theorem freqOf_append_singleton {α : Type} [DecidableEq α] (q : List α) (ch : α) :
    freqOf (q ++ [ch]) = bump (freqOf q) ch := by
  unfold freqOf
  rw [List.foldl_append, List.foldl_cons, List.foldl_nil]

theorem freqOf_rep {α : Type} [DecidableEq α] (q : List α) :
    ∃ L : List α, L.Nodup ∧ (∀ c, c ∈ L ↔ c ∈ q) ∧
      freqOf q = L.map (fun c => (c, q.count c)) := by
  induction q using List.reverseRecOn with
  | nil => exact ⟨[], List.nodup_nil, fun c => Iff.rfl, rfl⟩
  | append_singleton q ch ih =>
    obtain ⟨L, hnd, hmem, hrep⟩ := ih
    rw [freqOf_append_singleton, hrep, bump_map _ ch L hnd]
    by_cases hch : ch ∈ L
    · refine ⟨L, hnd, ?_, ?_⟩
      · intro c
        rw [List.mem_append, List.mem_singleton, hmem]
        constructor
        · exact Or.inl
        · rintro (h | h)
          · exact h
          · rw [h]; exact (hmem ch).1 hch
      · rw [if_pos hch]
        apply List.map_congr_left
        intro c _
        rw [List.count_append, List.count_singleton]
        by_cases hc : c = ch
        · subst hc; simp
        · have hc2 : ¬ ch = c := fun h => hc h.symm
          simp [hc, hc2]
    · refine ⟨L ++ [ch], ?_, ?_, ?_⟩
      · rw [List.nodup_append]
        refine ⟨hnd, List.nodup_singleton _, ?_⟩
        intro a ha hb
        rw [List.mem_singleton] at hb
        subst hb
        exact hch ha
      · intro c
        rw [List.mem_append, List.mem_append, hmem]
      · rw [if_neg hch, List.map_append, List.map_cons, List.map_nil]
        have hq : ch ∉ q := fun h => hch ((hmem ch).2 h)
        congr 1
        · apply List.map_congr_left
          intro c hc
          have hne : ¬ ch = c := fun h => hch (h ▸ hc)
          rw [List.count_append, List.count_singleton]
          simp [hne]
        · rw [List.count_append, List.count_singleton, List.count_eq_zero_of_not_mem hq]
          simp

theorem allK_freqOf {α : Type} [DecidableEq α] (q : List α) (k : Int) :
    allK (freqOf q) k = true ↔ EachExactly q k := by
  obtain ⟨L, _, hmem, hrep⟩ := freqOf_rep q
  rw [hrep, allK_map (fun c => q.count c) k L]
  unfold EachExactly
  constructor
  · intro h c hc
    exact h c ((hmem c).2 hc)
  · intro h c hc
    exact h c ((hmem c).1 hc)

theorem ite_allK_freqOf {α : Type} [DecidableEq α] (q : List α) (k : Int) :
    (if allK (freqOf q) k then 1 else 0) = (if EachExactly q k then 1 else 0 : Nat) := by
  by_cases h : EachExactly q k
  · rw [if_pos h, if_pos ((allK_freqOf q k).2 h)]
  · rw [if_neg h, if_neg (fun h2 => h ((allK_freqOf q k).1 h2))]

theorem gain_eq_sum {α : Type} [DecidableEq α] (k : Int) (t : List α) :
    ∀ p : List α, gain k (freqOf p) t =
      ∑ m ∈ Finset.range t.length, if EachExactly (p ++ t.take (m + 1)) k then 1 else 0 := by
  induction t with
  | nil => intro p; rfl
  | cons ch t ih =>
    intro p
    rw [gain, ← freqOf_append_singleton, ih (p ++ [ch]), ite_allK_freqOf, List.length_cons,
      Finset.sum_range_succ', Nat.add_comm]
    congr 1
    apply Finset.sum_congr rfl
    intro m _
    rw [List.take_succ_cons, List.append_assoc, List.singleton_append]

theorem row_sum_eq {α : Type} [DecidableEq α] (s : List α) (k : Int) (i : Nat)
    (hi : i ≤ s.length) :
    (∑ j ∈ Finset.range s.length,
        if i ≤ j ∧ EachExactly (substring s i j) k then 1 else 0) =
      ∑ m ∈ Finset.range (s.length - i),
        if EachExactly ((s.drop i).take (m + 1)) k then 1 else 0 := by
  rw [← Finset.sum_range_add_sum_Ico _ hi, Finset.sum_Ico_eq_sum_range]
  have h0 : (∑ j ∈ Finset.range i,
      if i ≤ j ∧ EachExactly (substring s i j) k then 1 else 0) = 0 := by
    apply Finset.sum_eq_zero
    intro j hj
    rw [Finset.mem_range] at hj
    rw [if_neg]
    intro h
    omega
  rw [h0, Nat.zero_add]
  apply Finset.sum_congr rfl
  intro m _
  have hsub : substring s i (i + m) = (s.drop i).take (m + 1) := by
    unfold substring
    congr 1
    omega
  rw [hsub]
  by_cases h : EachExactly ((s.drop i).take (m + 1)) k
  · rw [if_pos h, if_pos ⟨Nat.le_add_right _ _, h⟩]
  · rw [if_neg h, if_neg (fun h2 => h h2.2)]

theorem allK_iff_forall {α : Type} (k : Int) :
    ∀ freq : List (α × Nat), allK freq k = true ↔ ∀ e ∈ freq, (e.2 : Int) = k := by
  intro freq
  induction freq with
  | nil => simp [allK]
  | cons e freq ih =>
    obtain ⟨key, v⟩ := e
    rw [allK]
    by_cases h : (v : Int) = k
    · simp [h, ih]
    · simp [h]

end DsExampleJs

namespace ClosureExampleJs

theorem callCounter_of_some (h : Heap) (c v : Nat) (hv : h[c]? = some v) :
    callCounter h c = some (v + 1, h.set c (v + 1)) := by
  unfold callCounter
  rw [hv]

theorem callsOf_make (c : Nat) (ops : List Op) : callsOf c (Op.make :: ops) = callsOf c ops := by
  unfold callsOf
  rw [List.count_cons_of_ne (by intro h; cases h)]

theorem callsOf_call_self (c : Nat) (ops : List Op) :
    callsOf c (Op.call c :: ops) = callsOf c ops + 1 := by
  unfold callsOf
  rw [List.count_cons_self]

theorem callsOf_call_other (c d : Nat) (hcd : c ≠ d) (ops : List Op) :
    callsOf c (Op.call d :: ops) = callsOf c ops := by
  unfold callsOf
  rw [List.count_cons_of_ne (by intro h; cases h; exact hcd rfl)]

theorem run_ok (ops : List Op) :
    ∀ h : Heap, WellFormed h.length ops = true →
      ∃ rets h2, run h ops = some (rets, h2) ∧ h.length ≤ h2.length ∧
        ∀ c v, h[c]? = some v → h2[c]? = some (v + callsOf c ops) := by
  induction ops with
  | nil =>
    intro h _
    exact ⟨[], h, rfl, Nat.le_refl _, fun c v hv => hv⟩
  | cons op ops ih =>
    intro h hwf
    cases op with
    | make =>
      have hwf2 : WellFormed (h ++ [0]).length ops = true := by
        rw [List.length_append]
        exact hwf
      obtain ⟨rets, h2, hrun, hlen, hcells⟩ := ih (h ++ [0]) hwf2
      refine ⟨rets, h2, hrun, ?_, ?_⟩
      · rw [List.length_append] at hlen
        omega
      · intro c v hv
        rw [callsOf_make]
        apply hcells
        have hc : c < h.length := (List.getElem?_eq_some.1 hv).1
        rw [List.getElem?_append_left hc]
        exact hv
    | call d =>
      have hwf1 : (decide (d < h.length) && WellFormed h.length ops) = true := hwf
      rw [Bool.and_eq_true, decide_eq_true_eq] at hwf1
      obtain ⟨hd, hwf2⟩ := hwf1
      have hdv : h[d]? = some h[d] := List.getElem?_eq_getElem hd
      have hwf3 : WellFormed (h.set d (h[d] + 1)).length ops = true := by
        rw [List.length_set]
        exact hwf2
      obtain ⟨rets, h2, hrun, hlen, hcells⟩ := ih (h.set d (h[d] + 1)) hwf3
      refine ⟨(h[d] + 1) :: rets, h2, ?_, ?_, ?_⟩
      · rw [run, callCounter_of_some h d _ hdv]
        show (match run (h.set d (h[d] + 1)) ops with
          | none => none
          | some (rs, h2) => some ((h[d] + 1) :: rs, h2)) = _
        rw [hrun]
      · rw [List.length_set] at hlen
        exact hlen
      · intro c v hv
        by_cases hcd : c = d
        · subst hcd
          rw [callsOf_call_self]
          have hvv : v = h[c] := by
            rw [hdv] at hv
            exact (Option.some.inj hv).symm
          subst hvv
          have := hcells c (h[c] + 1) (List.getElem?_set_self hd)
          rw [this]
          congr 1
          omega
        · rw [callsOf_call_other c d hcd]
          apply hcells
          rw [List.getElem?_set_ne (fun h => hcd h.symm)]
          exact hv

theorem makeCounter_cell (h : Heap) : (makeCounter h).2[(makeCounter h).1]? = some 0 := by
  show (h ++ [0])[h.length]? = some 0
  rw [List.getElem?_append_right (Nat.le_refl _), Nat.sub_self]
  rfl

theorem callCounter_frame (g : Heap) (c d r : Nat) (g2 : Heap) (hcd : c ≠ d)
    (hcall : callCounter g c = some (r, g2)) : g2[d]? = g[d]? := by
  unfold callCounter at hcall
  split at hcall
  · cases hcall
  · cases hcall
    exact List.getElem?_set_ne hcd

theorem wellFormed_interleaving (n c1 c2 : Nat) (h1 : c1 < n) (h2 : c2 < n) :
    ∀ order : List Bool, WellFormed n (interleaving c1 c2 order) = true := by
  intro order
  induction order with
  | nil => rfl
  | cons b order ih =>
    show (decide ((if b then c1 else c2) < n) && WellFormed n (interleaving c1 c2 order)) = true
    rw [ih, Bool.and_true, decide_eq_true_eq]
    cases b
    · exact h2
    · exact h1

theorem callsOf_interleaving (c1 c2 : Nat) (hne : c1 ≠ c2) :
    ∀ order : List Bool,
      callsOf c1 (interleaving c1 c2 order) = order.count true ∧
      callsOf c2 (interleaving c1 c2 order) = order.count false := by
  intro order
  induction order with
  | nil => exact ⟨rfl, rfl⟩
  | cons b order ih =>
    cases b
    · have e : interleaving c1 c2 (false :: order) = Op.call c2 :: interleaving c1 c2 order := rfl
      rw [e, callsOf_call_other c1 c2 hne, callsOf_call_self, ih.1, ih.2]
      constructor
      · rw [List.count_cons_of_ne (by decide)]
      · rw [List.count_cons_self]
    · have e : interleaving c1 c2 (true :: order) = Op.call c1 :: interleaving c1 c2 order := rfl
      rw [e, callsOf_call_self, callsOf_call_other c2 c1 (fun h => hne h.symm), ih.1, ih.2]
      constructor
      · rw [List.count_cons_self]
      · rw [List.count_cons_of_ne (by decide)]

end ClosureExampleJs

/-! ## The worker and its dispatcher (worker.js, main.js) -/

/-- C1: the claim fails on worker.js as it is in the repository. Line 22 reads
`}orker Example`: after the closing brace come two identifiers on one line, a
syntax error at `Example`, so the worker thread ends before any listener is
registered. Whatever the payload `S`, the worker sent `{ type: 'start', data: S }`
posts nothing: the dispatcher is notified of one error and of exit code `1`,
and of no message. -/
theorem WorkerJs.shipped_worker_posts_no_result {P R E : Type}
    (loaded : WorkerJs.Message P → Except E (List (WorkerJs.Message R))) (S : P) :
    WorkerJs.unexpectedIdentifier
        [WorkerJs.Tok.ident "orker", WorkerJs.Tok.ident "Example", WorkerJs.Tok.newline] =
      some "Example" ∧
    WorkerJs.syntaxError WorkerJs.shipped = some "Example" ∧
    WorkerJs.workerThread WorkerJs.shipped loaded { type := "start", data := S } =
      .error (WorkerJs.Fault.syntaxError "Example") ∧
    MainJs.dispatch WorkerJs.shipped loaded S =
      [MainJs.Event.error (WorkerJs.Fault.syntaxError "Example"), MainJs.Event.exit 1] ∧
    ∀ m : WorkerJs.Message R,
      MainJs.Event.message m ∉ MainJs.dispatch WorkerJs.shipped loaded S := by
  have hd : MainJs.dispatch WorkerJs.shipped loaded S =
      [MainJs.Event.error (WorkerJs.Fault.syntaxError "Example"), MainJs.Event.exit 1] := rfl
  refine ⟨rfl, rfl, rfl, hd, ?_⟩
  intro m hm
  rw [hd] at hm
  rcases List.mem_cons.1 hm with h | h
  · cases h
  · rcases List.mem_cons.1 h with h | h
    · cases h
    · cases h

/-- C2: the claim fails on worker.js as it is in the repository. Because of
the syntax error on line 22 nothing of the file is run, so no function
`heavyComputation` is ever declared in the worker and no `result` is computed:
for the payload `[1, 2, 3, 4, 5]` of main.js the dispatcher writes no
`Main: Received from worker:` line. The declaration is seen as soon as the two
stray identifiers are apart. -/
theorem WorkerJs.shipped_heavyComputation_never_declared {R E : Type}
    (loaded : WorkerJs.Message (List Nat) → Except E (List (WorkerJs.Message R))) :
    WorkerJs.declaredFunctions WorkerJs.shipped = [] ∧
    "heavyComputation" ∉ WorkerJs.declaredFunctions WorkerJs.shipped ∧
    ((MainJs.run MainJs.initial
        (MainJs.dispatch WorkerJs.shipped loaded [1, 2, 3, 4, 5])).console.filter
      MainJs.LogLine.isReceived) = [] ∧
    WorkerJs.declaredFunctions
        [WorkerJs.SourceElement.functionDecl "heavyComputation",
         WorkerJs.SourceElement.raw
          [WorkerJs.Tok.ident "orker", WorkerJs.Tok.newline, WorkerJs.Tok.ident "Example"]] =
      ["heavyComputation"] := by
  refine ⟨rfl, ?_, rfl, rfl⟩
  intro h
  have h0 : WorkerJs.declaredFunctions WorkerJs.shipped = [] := rfl
  rw [h0] at h
  cases h

/-- C3: the claim fails on worker.js as it is in the repository. The worker
thread ends with the syntax error of line 22 before `heavyComputation` or the
listener exists, so the handler never reaches `postMessage`: after the start
message of main.js the console of the dispatcher holds the starting line, one
`Worker error:` line with the syntax error and `Worker stopped with exit code 1`,
and no line for a result. -/
theorem MainJs.shipped_dispatch_ends_in_error {P R E : Type}
    (loaded : WorkerJs.Message P → Except E (List (WorkerJs.Message R))) (S : P) :
    MainJs.run MainJs.initial (MainJs.dispatch WorkerJs.shipped loaded S) =
      { counter := 0,
        console := [MainJs.LogLine.starting,
          MainJs.LogLine.workerError (WorkerJs.Fault.syntaxError "Example"),
          MainJs.LogLine.stopped "Worker stopped with exit code 1"] } ∧
    ((MainJs.run MainJs.initial
        (MainJs.dispatch WorkerJs.shipped loaded S)).console.filter
      MainJs.LogLine.isReceived).length = 0 := by
  exact ⟨rfl, rfl⟩

/-- C4: for every exit code `c`, the exit listener of the dispatcher writes
exactly one line, with `console.error`, reading `Worker stopped with exit code c`,
if and only if `c` is not `0`; for `c = 0` it writes nothing; for `c = 1` the
line is `Worker stopped with exit code 1`. -/
theorem MainJs.exit_listener_logs_iff_nonzero {M E : Type} (c : Int) :
    ((MainJs.exitLines c : List (MainJs.LogLine M E)) =
        [MainJs.LogLine.stopped ("Worker stopped with exit code " ++ toString c)] ↔ c ≠ 0) ∧
    (((MainJs.exitLines c : List (MainJs.LogLine M E)).filter MainJs.LogLine.isError).length = 1
        ↔ c ≠ 0) ∧
    ((MainJs.exitLines c : List (MainJs.LogLine M E)) = [] ↔ c = 0) ∧
    (MainJs.exitLines 0 : List (MainJs.LogLine M E)) = [] ∧
    (MainJs.exitLines 1 : List (MainJs.LogLine M E)) =
      [MainJs.LogLine.stopped "Worker stopped with exit code 1"] ∧
    ∀ st : MainJs.MainState M E,
      MainJs.handle st (MainJs.Event.exit c) =
        { st with console := st.console ++ MainJs.exitLines c } := by
  refine ⟨?_, ?_, ?_, ?_, ?_, ?_⟩
  · unfold MainJs.exitLines
    by_cases h : c = 0
    · subst h; simp
    · simp [h]
  · unfold MainJs.exitLines
    by_cases h : c = 0
    · subst h; simp
    · simp [h, MainJs.LogLine.isError]
  · unfold MainJs.exitLines
    by_cases h : c = 0
    · subst h; simp
    · simp [h]
  · rfl
  · rfl
  · intro st
    rfl

/-- C5: the counter of the liveness loop goes up by exactly one on each tick.
Let `pre` be any sequence of events handled since start-up and `k - 1` the
number of ticks in it, so that the next tick is the `k`-th: that tick prints
`k - 1` and leaves the counter equal to `k`. No other listener changes the
counter. -/
theorem MainJs.counter_increases_by_one_each_tick {M E : Type} (pre : List (MainJs.Event M E)) :
    (MainJs.run MainJs.initial pre).counter = MainJs.ticks pre ∧
    (MainJs.handle (MainJs.run MainJs.initial pre) MainJs.Event.tick).console =
      (MainJs.run MainJs.initial pre).console ++ [MainJs.LogLine.counter (MainJs.ticks pre)] ∧
    (MainJs.handle (MainJs.run MainJs.initial pre) MainJs.Event.tick).counter =
      MainJs.ticks pre + 1 ∧
    ∀ (st : MainJs.MainState M E) (ev : MainJs.Event M E),
      ev.isTick = false → (MainJs.handle st ev).counter = st.counter := by
  have h0 : (MainJs.run (MainJs.initial : MainJs.MainState M E) pre).counter = MainJs.ticks pre := by
    rw [MainJs.run_counter]
    show 0 + MainJs.ticks pre = MainJs.ticks pre
    omega
  refine ⟨h0, ?_, ?_, ?_⟩
  · show (MainJs.run MainJs.initial pre).console ++
        [MainJs.LogLine.counter (MainJs.run MainJs.initial pre).counter] = _
    rw [h0]
  · show (MainJs.run MainJs.initial pre).counter + 1 = _
    rw [h0]
  · intro st ev hev
    rw [MainJs.handle_counter, hev]
    rfl

/-- C6: if the worker's computation throws `e` while the listener handles
`{ type: 'start', data: S }`, the listener posts nothing and `e` escapes it;
the dispatcher is then notified of one error and of exit code `1` and of no
message, so its error listener runs exactly once (one `Worker error:` line)
and no `Main: Received from worker:` line is written. -/
theorem MainJs.worker_throw_reaches_error_listener_once {P R E : Type}
    (compute : P → Except E R) (S : P) (e : E) (h : compute S = .error e)
    (st : MainJs.MainState (WorkerJs.Message R) E) :
    WorkerJs.onMessageWith compute { type := "start", data := S } = .error e ∧
    MainJs.deliver (WorkerJs.onMessageWith compute { type := "start", data := S }) =
      [MainJs.Event.error e, MainJs.Event.exit 1] ∧
    MainJs.run st (MainJs.deliver (WorkerJs.onMessageWith compute { type := "start", data := S })) =
      { st with console := st.console ++
          [MainJs.LogLine.workerError e,
           MainJs.LogLine.stopped "Worker stopped with exit code 1"] } := by
  have h1 : WorkerJs.onMessageWith compute { type := "start", data := S } = .error e := by
    unfold WorkerJs.onMessageWith
    rw [if_pos rfl]
    show (match compute S with
      | Except.error e => Except.error e
      | Except.ok result =>
        (Except.ok [{ type := "result", data := result }] :
          Except E (List (WorkerJs.Message R)))) = _
    rw [h]
  refine ⟨h1, ?_, ?_⟩
  · rw [h1]
    rfl
  · rw [h1]
    show MainJs.onWorkerExit (MainJs.onWorkerError st e) 1 = _
    unfold MainJs.onWorkerExit MainJs.onWorkerError
    have h2 : (MainJs.exitLines 1 : List (MainJs.LogLine (WorkerJs.Message R) E)) =
        [MainJs.LogLine.stopped "Worker stopped with exit code 1"] := rfl
    rw [h2]
    simp

/-- Witness for C6: a computation that throws `"boom"` on the payload of main.js. -/
theorem MainJs.worker_throw_reaches_error_listener_once_witness :
    (fun _ : List Nat => (Except.error "boom" : Except String Nat)) [1, 2, 3, 4, 5]
        = Except.error "boom" ∧
    MainJs.run MainJs.initial
        (MainJs.deliver (WorkerJs.onMessageWith
          (fun _ : List Nat => (Except.error "boom" : Except String Nat))
          { type := "start", data := [1, 2, 3, 4, 5] })) =
      { counter := 0,
        console := [MainJs.LogLine.starting, MainJs.LogLine.workerError "boom",
          MainJs.LogLine.stopped "Worker stopped with exit code 1"] } :=
  ⟨rfl, (MainJs.worker_throw_reaches_error_listener_once
      (fun _ : List Nat => (Except.error "boom" : Except String Nat))
      [1, 2, 3, 4, 5] "boom" rfl MainJs.initial).2.2⟩

/-! ## The delay state of getSquare (nestedCallback.js) -/

/-- C7: `getSquare` keeps its delay state in `getSquare.delay`. Let `calls` be
the calls made since program start, with any arguments, and `k` their number
plus one, so that the next call is the `k`-th: that call schedules its callback
with a delay of `1000 * k` milliseconds and leaves `getSquare.delay` equal to
`1000 * (k + 1)`, whatever its own arguments. -/
theorem NestedCallbackJs.getSquare_kth_call_delay {N C : Type} (calls : List (N × C))
    (num : N) (callback : C) :
    (NestedCallbackJs.getSquare (NestedCallbackJs.runCalls NestedCallbackJs.initial calls)
        num callback).timers =
      (NestedCallbackJs.runCalls NestedCallbackJs.initial calls).timers ++
        [{ delay := 1000 * (calls.length + 1), num := num, callback := callback }] ∧
    (NestedCallbackJs.getSquare (NestedCallbackJs.runCalls NestedCallbackJs.initial calls)
        num callback).delay = some (1000 * (calls.length + 1 + 1)) := by
  cases calls with
  | nil => constructor <;> rfl
  | cons a calls =>
    have h := NestedCallbackJs.runCalls_initial_delay a calls
    rw [NestedCallbackJs.getSquare_of_some _ _ h]
    refine ⟨rfl, ?_⟩
    show some (1000 * ((a :: calls).length + 1) + 1000) = _
    congr 1

/-! ## Throttling (throttling.js) -/

/-- C10, as stated, fails: with a limit of 2000 ms and a `func` that throws on
each call, the calls at 10000, 10500 and 11000, whose clock readings are
non-decreasing, all invoke `func`, 500 ms apart, because `lastCall = now` comes
after `func.apply` and is skipped. A `func` that calls the returned function
again while it runs is likewise invoked twice at the same reading. -/
theorem ThrottlingJs.throwing_func_invoked_within_limit :
    (ThrottlingJs.clockReadings
        [ThrottlingJs.Event.call 10000 "Message 1", ThrottlingJs.Event.funcThrows,
         ThrottlingJs.Event.call 10500 "Message 2", ThrottlingJs.Event.funcThrows,
         ThrottlingJs.Event.call 11000 "Message 3", ThrottlingJs.Event.funcThrows]).Pairwise
      (fun a b => a ≤ b) ∧
    (ThrottlingJs.run 2000 ThrottlingJs.throttle
        [ThrottlingJs.Event.call 10000 "Message 1", ThrottlingJs.Event.funcThrows,
         ThrottlingJs.Event.call 10500 "Message 2", ThrottlingJs.Event.funcThrows,
         ThrottlingJs.Event.call 11000 "Message 3", ThrottlingJs.Event.funcThrows]).invoked =
      [(10000, "Message 1"), (10500, "Message 2"), (11000, "Message 3")] ∧
    ¬ ((ThrottlingJs.run 2000 ThrottlingJs.throttle
        [ThrottlingJs.Event.call 10000 "Message 1", ThrottlingJs.Event.funcThrows,
         ThrottlingJs.Event.call 10500 "Message 2", ThrottlingJs.Event.funcThrows,
         ThrottlingJs.Event.call 11000 "Message 3", ThrottlingJs.Event.funcThrows]).invoked.map
        Prod.fst).Pairwise (fun a b => (2000 : Int) ≤ b - a) ∧
    (ThrottlingJs.run 2000 ThrottlingJs.throttle
        [ThrottlingJs.Event.call 10000 "outer", ThrottlingJs.Event.call 10000 "inner",
         ThrottlingJs.Event.funcReturns, ThrottlingJs.Event.funcReturns]).invoked =
      [(10000, "outer"), (10000, "inner")] := by
  decide

/-- C10, amended: a function throttled with `throttle(func, limit)` runs `func`
at most once every `limit` milliseconds when `func` returns normally each time
and does not call the throttled function itself: for every sequence of such
calls whose clock readings are non-decreasing, any two calls on which `func` is
invoked have clock readings at least `limit` apart. -/
theorem ThrottlingJs.returning_func_invocations_limit_apart {A : Type} (limit : Int)
    (calls : List (Int × A))
    (hmono : (ThrottlingJs.clockReadings (ThrottlingJs.returningCalls calls)).Pairwise
      (fun a b => a ≤ b)) :
    ((ThrottlingJs.run limit ThrottlingJs.throttle
        (ThrottlingJs.returningCalls calls)).invoked.map Prod.fst).Pairwise
      (fun a b => limit ≤ b - a) := by
  rw [ThrottlingJs.clockReadings_returningCalls] at hmono
  refine (ThrottlingJs.apart_run limit calls ThrottlingJs.throttle hmono ?_).pairwise
  refine ⟨rfl, ?_, ?_, ?_⟩
  · exact List.Pairwise.nil
  · intro t ht
    cases ht
  · intro t ht
    cases ht

/-- Witness for C10, amended: the first six calls of the demonstration, 500 ms
apart with a limit of 2000 ms, `func` returning each time; `func` runs on the
first and the fifth. -/
theorem ThrottlingJs.returning_func_invocations_limit_apart_witness :
    (ThrottlingJs.clockReadings (ThrottlingJs.returningCalls
      [(10000, "Message 1"), (10500, "Message 2"), (11000, "Message 3"), (11500, "Message 4"),
        (12000, "Message 5"), (12500, "Message 6")])).Pairwise (fun a b => a ≤ b) ∧
    (ThrottlingJs.run 2000 ThrottlingJs.throttle (ThrottlingJs.returningCalls
      [(10000, "Message 1"), (10500, "Message 2"), (11000, "Message 3"), (11500, "Message 4"),
        (12000, "Message 5"), (12500, "Message 6")])).invoked =
      [(10000, "Message 1"), (12000, "Message 5")] ∧
    ((ThrottlingJs.run 2000 ThrottlingJs.throttle (ThrottlingJs.returningCalls
      [(10000, "Message 1"), (10500, "Message 2"), (11000, "Message 3"), (11500, "Message 4"),
        (12000, "Message 5"), (12500, "Message 6")])).invoked.map Prod.fst).Pairwise
      (fun a b => (2000 : Int) ≤ b - a) :=
  ⟨by decide, by decide,
    ThrottlingJs.returning_func_invocations_limit_apart 2000 _ (by decide)⟩

/-! ## Counting substrings (ds_example.js) -/

/-- C8: for every string `s`, over any alphabet, and every integer `k`,
`countSubarraysWithK(s, k)` is the number of index pairs `(i, j)` with
`0 ≤ i ≤ j < |s|` such that every character occurring in the substring
`s[i..j]` occurs in it exactly `k` times. The order in which `for ... in`
visits the keys of `freq` does not matter. -/
theorem DsExampleJs.countSubarraysWithK_counts_pairs {α : Type} [DecidableEq α]
    (s : List α) (k : Int) :
    DsExampleJs.countSubarraysWithK s k =
        ((Finset.range s.length ×ˢ Finset.range s.length).filter
          (fun p => p.1 ≤ p.2 ∧
            ∀ c ∈ DsExampleJs.substring s p.1 p.2,
              ((DsExampleJs.substring s p.1 p.2).count c : Int) = k)).card ∧
      ∀ freq freq2 : List (α × Nat), freq.Perm freq2 →
        DsExampleJs.allK freq k = DsExampleJs.allK freq2 k := by
  constructor
  · show _ = DsExampleJs.pairCount s k
    unfold DsExampleJs.countSubarraysWithK DsExampleJs.pairCount
    rw [DsExampleJs.outer_eq_sum s k s.length (Nat.le_refl _), Finset.card_filter,
      Finset.sum_product]
    apply Finset.sum_congr rfl
    intro i hi
    rw [Finset.mem_range] at hi
    rw [DsExampleJs.row_sum_eq s k i (by omega)]
    have h := DsExampleJs.gain_eq_sum k (s.drop i) []
    rw [List.length_drop] at h
    exact h
  · intro freq freq2 hperm
    rw [Bool.eq_iff_iff, DsExampleJs.allK_iff_forall, DsExampleJs.allK_iff_forall]
    constructor
    · intro h e he
      exact h e (hperm.mem_iff.2 he)
    · intro h e he
      exact h e (hperm.mem_iff.1 he)

/-- C9: on the example of the file, `countSubarraysWithK("aabb", 2)` is `3`, not
the `1` that the comment after the call expects: besides `"aabb"` the
substrings `"aa"` (`i = 0, j = 1`) and `"bb"` (`i = 2, j = 3`) are counted,
and the first pass of the outer loop alone counts two. -/
theorem DsExampleJs.countSubarraysWithK_aabb_eq_three :
    DsExampleJs.countSubarraysWithK ['a', 'a', 'b', 'b'] 2 = 3 ∧
    DsExampleJs.countSubarraysWithK ['a', 'a', 'b', 'b'] 2 ≠ 1 ∧
    DsExampleJs.innerLoop ['a', 'a', 'b', 'b'] 2 0 0 = 2 ∧
    DsExampleJs.innerLoop ['a', 'a', 'b', 'b'] 2 2 0 = 1 ∧
    DsExampleJs.allK (DsExampleJs.freqOf ['a', 'a']) 2 = true ∧
    DsExampleJs.allK (DsExampleJs.freqOf ['b', 'b']) 2 = true ∧
    DsExampleJs.allK (DsExampleJs.freqOf ['a', 'a', 'b', 'b']) 2 = true := by
  decide

/-! ## Counters made by closures (closure_example.js) -/

/-- C11: for every counter returned by `makeCounter()` and every `n ≥ 1`, the
`n`-th call of that counter returns `n`. Whatever the program does after the
counter is made (calls of it, calls of other counters, further `makeCounter()`),
if the counter has been called `n - 1` times, its next call returns `n`. In the
demonstration the first call returns `1` and the second `2`. -/
theorem ClosureExampleJs.counter_nth_call_returns_n (h : ClosureExampleJs.Heap)
    (ops : List ClosureExampleJs.Op)
    (hwf : ClosureExampleJs.WellFormed (ClosureExampleJs.makeCounter h).2.length ops = true) :
    (∃ rets h2, ClosureExampleJs.run (ClosureExampleJs.makeCounter h).2 ops = some (rets, h2) ∧
      ∃ h3, ClosureExampleJs.callCounter h2 (ClosureExampleJs.makeCounter h).1 =
        some (ClosureExampleJs.callsOf (ClosureExampleJs.makeCounter h).1 ops + 1, h3)) ∧
    (ClosureExampleJs.run [] [ClosureExampleJs.Op.make, ClosureExampleJs.Op.call 0,
      ClosureExampleJs.Op.call 0]).map Prod.fst = some [1, 2] := by
  refine ⟨?_, by decide⟩
  obtain ⟨rets, h2, hrun, _, hcells⟩ := ClosureExampleJs.run_ok ops _ hwf
  have hc := hcells _ 0 (ClosureExampleJs.makeCounter_cell h)
  refine ⟨rets, h2, hrun, ?_⟩
  rw [ClosureExampleJs.callCounter_of_some h2 _ _ hc, Nat.zero_add]
  exact ⟨_, rfl⟩

/-- Witness for C11: `counter1` is made first and called once; its second call
returns `2`. -/
theorem ClosureExampleJs.counter_nth_call_returns_n_witness :
    ClosureExampleJs.WellFormed (ClosureExampleJs.makeCounter []).2.length
        [ClosureExampleJs.Op.call 0] = true ∧
    ∃ rets h2, ClosureExampleJs.run (ClosureExampleJs.makeCounter []).2
        [ClosureExampleJs.Op.call 0] = some (rets, h2) ∧
      ∃ h3, ClosureExampleJs.callCounter h2 (ClosureExampleJs.makeCounter []).1 =
        some (ClosureExampleJs.callsOf (ClosureExampleJs.makeCounter []).1
          [ClosureExampleJs.Op.call 0] + 1, h3) :=
  ⟨by decide,
    (ClosureExampleJs.counter_nth_call_returns_n [] [ClosureExampleJs.Op.call 0] (by decide)).1⟩

/-- C12: counters made by separate `makeCounter()` calls are independent. Let
`counter1` be made, then any program run, then `counter2` be made, then the two
be called in any order: the two counters are distinct, a call of one leaves
what the other returns unchanged, and each call returns one more than the
number of earlier calls of the same counter. In the demonstration `counter2`
returns `1` on its first call, after `counter1` was called twice. -/
theorem ClosureExampleJs.counters_are_independent (h : ClosureExampleJs.Heap)
    (ops1 : List ClosureExampleJs.Op)
    (hwf : ClosureExampleJs.WellFormed (ClosureExampleJs.makeCounter h).2.length ops1 = true)
    (order : List Bool) :
    (∃ rets1 ha, ClosureExampleJs.run (ClosureExampleJs.makeCounter h).2 ops1 = some (rets1, ha) ∧
      (ClosureExampleJs.makeCounter h).1 ≠ (ClosureExampleJs.makeCounter ha).1 ∧
      ∃ rets hb,
        ClosureExampleJs.run (ClosureExampleJs.makeCounter ha).2
          (ClosureExampleJs.interleaving (ClosureExampleJs.makeCounter h).1
            (ClosureExampleJs.makeCounter ha).1 order) = some (rets, hb) ∧
        (∃ hc, ClosureExampleJs.callCounter hb (ClosureExampleJs.makeCounter h).1 =
          some (ClosureExampleJs.callsOf (ClosureExampleJs.makeCounter h).1 ops1 +
            order.count true + 1, hc)) ∧
        (∃ hc, ClosureExampleJs.callCounter hb (ClosureExampleJs.makeCounter ha).1 =
          some (order.count false + 1, hc))) ∧
    (∀ (g : ClosureExampleJs.Heap) (c d r : Nat) (g2 : ClosureExampleJs.Heap), c ≠ d →
      ClosureExampleJs.callCounter g c = some (r, g2) →
      (ClosureExampleJs.callCounter g2 d).map Prod.fst =
        (ClosureExampleJs.callCounter g d).map Prod.fst) ∧
    (ClosureExampleJs.run [] [ClosureExampleJs.Op.make, ClosureExampleJs.Op.call 0,
      ClosureExampleJs.Op.call 0, ClosureExampleJs.Op.make,
      ClosureExampleJs.Op.call 1]).map Prod.fst = some [1, 2, 1] := by
  refine ⟨?_, ?_, by decide⟩
  · obtain ⟨rets1, ha, hrun1, hlen1, hcells1⟩ := ClosureExampleJs.run_ok ops1 _ hwf
    have hlen : h.length + 1 ≤ ha.length := by
      have e : (ClosureExampleJs.makeCounter h).2.length = h.length + 1 := by
        show (h ++ [0]).length = h.length + 1
        rw [List.length_append]
        rfl
      omega
    have hne : (ClosureExampleJs.makeCounter h).1 ≠ (ClosureExampleJs.makeCounter ha).1 := by
      show h.length ≠ ha.length
      omega
    have hb1 : (ClosureExampleJs.makeCounter h).1 < (ClosureExampleJs.makeCounter ha).2.length := by
      show h.length < (ha ++ [0]).length
      rw [List.length_append]
      omega
    have hb2 : (ClosureExampleJs.makeCounter ha).1 < (ClosureExampleJs.makeCounter ha).2.length := by
      show ha.length < (ha ++ [0]).length
      rw [List.length_append]
      exact Nat.lt_succ_self _
    obtain ⟨rets, hb, hrun2, _, hcells2⟩ :=
      ClosureExampleJs.run_ok _ (ClosureExampleJs.makeCounter ha).2
        (ClosureExampleJs.wellFormed_interleaving _ _ _ hb1 hb2 order)
    have hcount := ClosureExampleJs.callsOf_interleaving _ _ hne order
    have hc1a := hcells1 _ 0 (ClosureExampleJs.makeCounter_cell h)
    have hc1b : (ClosureExampleJs.makeCounter ha).2[(ClosureExampleJs.makeCounter h).1]? =
        some (0 + ClosureExampleJs.callsOf (ClosureExampleJs.makeCounter h).1 ops1) := by
      show (ha ++ [0])[h.length]? = _
      rw [List.getElem?_append_left (by omega)]
      exact hc1a
    have hc1 := hcells2 _ _ hc1b
    have hc2 := hcells2 _ 0 (ClosureExampleJs.makeCounter_cell ha)
    rw [hcount.1] at hc1
    rw [hcount.2] at hc2
    refine ⟨rets1, ha, hrun1, hne, rets, hb, hrun2, ?_, ?_⟩
    · rw [ClosureExampleJs.callCounter_of_some hb _ _ hc1, Nat.zero_add]
      exact ⟨_, rfl⟩
    · rw [ClosureExampleJs.callCounter_of_some hb _ _ hc2, Nat.zero_add]
      exact ⟨_, rfl⟩
  · intro g c d r g2 hcd hcall
    have hfr := ClosureExampleJs.callCounter_frame g c d r g2 hcd hcall
    unfold ClosureExampleJs.callCounter
    rw [hfr]
    cases g[d]? <;> rfl

/-- Witness for C12: the demonstration. `counter1` is made and called twice,
`counter2` is made, and its first call returns `1`. -/
theorem ClosureExampleJs.counters_are_independent_witness :
    ClosureExampleJs.WellFormed (ClosureExampleJs.makeCounter []).2.length
        [ClosureExampleJs.Op.call 0, ClosureExampleJs.Op.call 0] = true ∧
    ∃ rets1 ha, ClosureExampleJs.run (ClosureExampleJs.makeCounter []).2
        [ClosureExampleJs.Op.call 0, ClosureExampleJs.Op.call 0] = some (rets1, ha) ∧
      (ClosureExampleJs.makeCounter []).1 ≠ (ClosureExampleJs.makeCounter ha).1 ∧
      ∃ rets hb,
        ClosureExampleJs.run (ClosureExampleJs.makeCounter ha).2
          (ClosureExampleJs.interleaving (ClosureExampleJs.makeCounter []).1
            (ClosureExampleJs.makeCounter ha).1 []) = some (rets, hb) ∧
        (∃ hc, ClosureExampleJs.callCounter hb (ClosureExampleJs.makeCounter []).1 =
          some (ClosureExampleJs.callsOf (ClosureExampleJs.makeCounter []).1
            [ClosureExampleJs.Op.call 0, ClosureExampleJs.Op.call 0] +
            ([] : List Bool).count true + 1, hc)) ∧
        (∃ hc, ClosureExampleJs.callCounter hb (ClosureExampleJs.makeCounter ha).1 =
          some (([] : List Bool).count false + 1, hc)) :=
  ⟨by decide,
    (ClosureExampleJs.counters_are_independent []
      [ClosureExampleJs.Op.call 0, ClosureExampleJs.Op.call 0] (by decide) []).1⟩
